import Mathlib

/-!
# Verification of the React-Calculator calculation engine

Shallow embedding of `src/utils/calculatorLogic.ts` (the `calculate`
state-transition function and its `formatResult` numeric-formatting guard),
together with proofs of the specification claims about them.

Modelling conventions:
* JavaScript strings are Lean `String`s; `string | null` fields are
  `Option String`, and JS truthiness of such a field (`if (next)`) is
  `truthy`: present and non-empty.
* JavaScript numbers are modelled by `JSNum`: either an exact rational
  (`ℚ`) or one of the non-finite values NaN / +Infinity / -Infinity.
  All numbers that actually flow through the engine come from
  `parseFloat` of button-built strings, so they are finite or NaN; the
  infinite values exist so that `formatResult`'s `isFinite` guard is
  modelled on its full domain.
* Thrown `CalculatorError`s are modelled with `Except CalculatorError`.
-/

/-- The calculator state: `{ total, next, operation }`, each `string | null`. -/
structure CalculatorState where
  total : Option String
  next : Option String
  operation : Option String
deriving DecidableEq, Repr

/-- The `CalculatorError` class: a message and a machine-readable code. -/
structure CalculatorError where
  message : String
  code : String
deriving DecidableEq, Repr

/-- JS truthiness of a `string | null` value: non-null and non-empty. -/
def truthy : Option String → Bool
  | none => false
  | some s => !(s == "")

/-- The string held by a `string | null` value (only meaningful when truthy). -/
def getStr : Option String → String
  | none => ""
  | some s => s

/-- A JavaScript number: an exact rational, or NaN, or ±Infinity. -/
inductive JSNum where
  | num (q : ℚ)
  | nan
  | posInf
  | negInf
deriving DecidableEq, Repr

/-- `isFinite(value)`. -/
def jsIsFinite : JSNum → Bool
  | .num _ => true
  | _ => false

/-- Digit characters `0`-`9`. -/
def digChars : List Char := ['0', '1', '2', '3', '4', '5', '6', '7', '8', '9']

/-- Characters matched by the `/[0-9.]/` character class. -/
def numChars : List Char := ['0', '1', '2', '3', '4', '5', '6', '7', '8', '9', '.']

/-- Numeric value of a digit character. -/
def digitVal (c : Char) : ℕ := c.toNat - 48

/-- Value of a digit sequence read in base 10. -/
def digitsToNat (cs : List Char) : ℕ := cs.foldl (fun a c => a * 10 + digitVal c) 0

/-- Models `parseFloat` on the fragment the engine exercises: an optional
sign followed by decimal digits and at most one decimal point, ignoring any
trailing garbage.  Strings built by the engine never contain an exponent,
whitespace or `Infinity`, so those parts of `parseFloat` are not modelled.
`none` stands for NaN (no numeric prefix at all). -/
def parseFloat (s : String) : Option ℚ :=
  let cs := s.data
  let sgn : ℚ := match cs with
    | '-' :: _ => -1
    | _ => 1
  let cs1 := match cs with
    | '-' :: t => t
    | '+' :: t => t
    | _ => cs
  let ip := cs1.takeWhile Char.isDigit
  let cs2 := cs1.drop ip.length
  let fp := match cs2 with
    | '.' :: t => t.takeWhile Char.isDigit
    | _ => []
  if ip = [] ∧ fp = [] then none
  else some (sgn * ((digitsToNat ip : ℚ) + (digitsToNat fp : ℚ) / 10 ^ fp.length))

/-- The number a state string denotes: `parseFloat(s)`, NaN when unparseable. -/
def valueOf (s : String) : JSNum :=
  match parseFloat s with
  | some q => .num q
  | none => .nan

/-- `MAX_SAFE_VALUE = 999999999999` (12 digits max). -/
def MAX_SAFE_VALUE : ℚ := 999999999999

/-- `MIN_SAFE_VALUE = -999999999999`. -/
def MIN_SAFE_VALUE : ℚ := -999999999999

/-- `MAX_DECIMAL_PLACES = 8`. -/
def MAX_DECIMAL_PLACES : ℕ := 8

/-- `MAX_DISPLAY_LENGTH = 12`. -/
def MAX_DISPLAY_LENGTH : ℕ := 12

/-- The character for a decimal digit value. -/
def digitChar : ℕ → Char
  | 0 => '0'
  | 1 => '1'
  | 2 => '2'
  | 3 => '3'
  | 4 => '4'
  | 5 => '5'
  | 6 => '6'
  | 7 => '7'
  | 8 => '8'
  | _ => '9'

/-- Base-10 digits of a natural number, most significant first (empty for 0).
The first argument is fuel; `natDigs (n+1) n` produces all digits of `n`. -/
def natDigs : ℕ → ℕ → List Char
  | 0, _ => []
  | _ + 1, 0 => []
  | fuel + 1, n => natDigs fuel (n / 10) ++ [digitChar (n % 10)]

/-- Decimal string of a natural number. -/
def natStr (n : ℕ) : String :=
  if n = 0 then "0" else String.mk (natDigs (n + 1) n)

/-- Fractional decimal digits of `n / d` (for `n < d`) by long division,
stopping at a zero remainder or when the fuel runs out. -/
def fracStr : ℕ → ℕ → ℕ → List Char
  | _, _, 0 => []
  | n, d, fuel + 1 =>
    if n = 0 then [] else digitChar (n * 10 / d) :: fracStr (n * 10 % d) d fuel

/-- The fractional digits of `q`: the long-division expansion of `q - ⌊q⌋`,
capped at 17 digits (a JS double prints at most 17 significant digits, so
every JS `toString` output terminates; the exact-rational model cuts
non-terminating expansions at the same depth). -/
def fracDigits (q : ℚ) : List Char :=
  fracStr (q - ⌊q⌋).num.toNat (q - ⌊q⌋).den 17

/-- Plain (non-exponential) decimal expansion of a positive rational:
integer part, then the fractional digits when there are any. -/
def plainDec (q : ℚ) : String :=
  if fracDigits q = [] then natStr (⌊q⌋).toNat
  else natStr (⌊q⌋).toNat ++ "." ++ String.mk (fracDigits q)

/-- Floor of the base-10 logarithm of a nonzero rational. -/
def qLog10 (q : ℚ) : ℤ :=
  let e0 : ℤ := (Nat.log 10 q.num.natAbs : ℤ) - (Nat.log 10 q.den : ℤ)
  if |q| < (10 : ℚ) ^ e0 then e0 - 1
  else if (10 : ℚ) ^ (e0 + 1) ≤ |q| then e0 + 1
  else e0

/-- Models `Number.prototype.toString`: `"0"` for zero, a plain decimal
expansion for `1e-6 ≤ |v| < 1e21`, and exponential notation (`"1e-7"`,
`"1e+21"`) outside that range. -/
def jsToString (q : ℚ) : String :=
  if q = 0 then "0"
  else
    let sgn := if q < 0 then "-" else ""
    let aq := |q|
    if aq < 1 / 10 ^ 6 ∨ (10 : ℚ) ^ 21 ≤ aq then
      let e := qLog10 aq
      sgn ++ plainDec (aq * (10 : ℚ) ^ (-e)) ++ "e" ++
        (if e < 0 then "-" else "+") ++ natStr e.natAbs
    else sgn ++ plainDec aq

/-- Models `s.includes(c)` for a single character. -/
def strContains (s : String) (c : Char) : Bool := s.data.contains c

/-- Models `s.split('.')[1]`: the segment of `s` strictly between the first
dot and the following dot (or the end of the string). -/
def fracPartStr (s : String) : String :=
  String.mk (((s.data.dropWhile (fun c => !(c == '.'))).drop 1).takeWhile
    (fun c => !(c == '.')))

/-- Round half away from zero to an integer, as `toFixed` does. -/
def roundHalfAway (q : ℚ) : ℤ :=
  if q < 0 then -⌊-q + 1 / 2⌋ else ⌊q + 1 / 2⌋

/-- Models `parseFloat(value.toFixed(8))`: the value rounded to 8 decimal
places. -/
def toFixed8 (q : ℚ) : ℚ := (roundHalfAway (q * 10 ^ 8) : ℚ) / 10 ^ 8

/-- `formatResult`: format a computed value with overflow/underflow
handling, or signal a `CalculatorError`. -/
def formatResult (value : JSNum) : Except CalculatorError String :=
  match value with
  | .nan | .posInf | .negInf => .error ⟨"Error", "OVERFLOW"⟩
  | .num v =>
    if v = 0 then .ok "0"
    else if MAX_SAFE_VALUE < v ∨ v < MIN_SAFE_VALUE then .error ⟨"Error", "OVERFLOW"⟩
    else if |v| < 1 / 10 ^ 8 then .ok "0"
    else
      let result := jsToString v
      if strContains result 'e' = true then .error ⟨"Error", "OVERFLOW"⟩
      else
        let result2 :=
          if strContains result '.' = true ∧
              MAX_DECIMAL_PLACES < (fracPartStr result).length then
            jsToString (toFixed8 v)
          else result
        if MAX_DISPLAY_LENGTH < result2.length then .error ⟨"Error", "OVERFLOW"⟩
        else .ok result2

/-- The display string `formatResult` would return for a finite in-range
value: `toString`, rounded to 8 decimal places when the fractional part is
longer than 8 digits. -/
def displayStr (q : ℚ) : String :=
  let result := jsToString q
  if strContains result '.' = true ∧
      MAX_DECIMAL_PLACES < (fracPartStr result).length then
    jsToString (toFixed8 q)
  else result

/-- Lift an exact binary operation to JS numbers.  Operands reaching the
engine's operations are finite or NaN (they come from `parseFloat` of
button-built strings, which never yields ±Infinity in this model), and any
non-finite operand propagates to a NaN result. -/
def liftNaN (f : ℚ → ℚ → ℚ) : JSNum → JSNum → JSNum
  | .num a, .num b => .num (f a b)
  | _, _ => .nan

/-- The generic `CALCULATION_ERROR` produced by the `catch` block for any
non-`CalculatorError` failure (e.g. calling an undefined operation). -/
def calcErr : CalculatorError := ⟨"Calculation error", "CALCULATION_ERROR"⟩

/-- The `operations` record: `+`, `−`, `×` and `÷` (the latter throwing
`DIVISION_BY_ZERO` when the right operand is exactly zero). `none` models an
undefined lookup, whose invocation the `catch` block turns into
`CALCULATION_ERROR`. -/
def operationsMap : String → Option (JSNum → JSNum → Except CalculatorError JSNum)
  | "+" => some (fun a b => .ok (liftNaN (· + ·) a b))
  | "−" => some (fun a b => .ok (liftNaN (· - ·) a b))
  | "×" => some (fun a b => .ok (liftNaN (· * ·) a b))
  | "÷" => some (fun a b =>
      if b = .num 0 then .error ⟨"Error", "DIVISION_BY_ZERO"⟩
      else .ok (liftNaN (· / ·) a b))
  | _ => none

/-- Negation of a JS number (for the `±` button). -/
def jsNeg : JSNum → JSNum
  | .num q => .num (-q)
  | .nan => .nan
  | .posInf => .negInf
  | .negInf => .posInf

/-- Division of a JS number by 100 (for the `%` button). -/
def jsDiv100 : JSNum → JSNum
  | .num q => .num (q / 100)
  | .nan => .nan
  | .posInf => .posInf
  | .negInf => .negInf

/-- The `isNumber` helper: `/[0-9.]/.test(item)` (the item contains a digit
or a dot somewhere). -/
def isNumber (item : String) : Bool :=
  item.data.any (fun c => c.isDigit || c == '.')

/-- The main `calculate` function: one button press on a state, returning
the next state or a `CalculatorError`. -/
def calculate (state : CalculatorState) (buttonName : String) :
    Except CalculatorError CalculatorState :=
  if buttonName = "AC" then
    .ok ⟨none, none, none⟩
  else if buttonName = "±" then
    if truthy state.next then
      match formatResult (jsNeg (valueOf (getStr state.next))) with
      | .error e => .error e
      | .ok r => .ok { state with next := some r }
    else if truthy state.total then
      match formatResult (jsNeg (valueOf (getStr state.total))) with
      | .error e => .error e
      | .ok r => .ok { state with total := some r }
    else .ok state
  else if buttonName = "%" then
    if truthy state.next then
      match formatResult (jsDiv100 (valueOf (getStr state.next))) with
      | .error e => .error e
      | .ok r => .ok { state with next := some r }
    else if truthy state.total then
      match formatResult (jsDiv100 (valueOf (getStr state.total))) with
      | .error e => .error e
      | .ok r => .ok { state with total := some r }
    else .ok state
  else if buttonName = "=" then
    if truthy state.total = true ∧ truthy state.operation = true ∧
        truthy state.next = true then
      match operationsMap (getStr state.operation) with
      | none => .error calcErr
      | some f =>
        match f (valueOf (getStr state.total)) (valueOf (getStr state.next)) with
        | .error e => .error e
        | .ok r =>
          match formatResult r with
          | .error e => .error e
          | .ok fr => .ok ⟨some fr, none, none⟩
    else .ok state
  else if buttonName = "+" ∨ buttonName = "−" ∨ buttonName = "×" ∨ buttonName = "÷" then
    if truthy state.total = true ∧ truthy state.operation = true ∧
        truthy state.next = true then
      match operationsMap (getStr state.operation) with
      | none => .error calcErr
      | some f =>
        match f (valueOf (getStr state.total)) (valueOf (getStr state.next)) with
        | .error e => .error e
        | .ok r =>
          match formatResult r with
          | .error e => .error e
          | .ok fr => .ok ⟨some fr, none, some buttonName⟩
    else if ¬ truthy state.operation = true then
      .ok ⟨if truthy state.next then state.next else state.total, none, some buttonName⟩
    else .ok { state with operation := some buttonName }
  else if isNumber buttonName = true then
    if buttonName = "." ∧ truthy state.next = true ∧
        strContains (getStr state.next) '.' = true then
      .ok state
    else if buttonName = "." ∧ ¬ truthy state.next = true then
      .ok { state with next := some "0." }
    else if truthy state.operation = true then
      if truthy state.next = true then
        .ok { state with next := some (if getStr state.next = "0" then buttonName
                                       else getStr state.next ++ buttonName) }
      else .ok { state with next := some buttonName }
    else if truthy state.next = true then
      .ok ⟨none, some (if getStr state.next = "0" then buttonName
                       else getStr state.next ++ buttonName), state.operation⟩
    else .ok ⟨none, some buttonName, state.operation⟩
  else .ok state

/-- The empty state: all three fields absent. -/
def emptyState : CalculatorState := ⟨none, none, none⟩

/-- Press a sequence of buttons, stopping at the first error. -/
def pressList (s : CalculatorState) : List String → Except CalculatorError CalculatorState
  | [] => .ok s
  | b :: rest =>
    match calculate s b with
    | .error e => .error e
    | .ok s2 => pressList s2 rest

/-- The button presses that type out a literal, one per character. -/
def buttons (a : String) : List String := a.data.map (fun c => String.mk [c])

/-- A decimal literal the keypad can reproduce verbatim: nonempty, made of
digits and at most one dot, starting with a digit, and starting with `0`
only if it is exactly `"0"` (the engine replaces a lone leading zero). -/
def goodLit (a : String) : Bool :=
  match a.data with
  | [] => false
  | c :: cs =>
    digChars.contains c &&
    (!(c == '0') || cs.isEmpty) &&
    cs.all (fun d => numChars.contains d) &&
    decide ((c :: cs).countP (fun d => d == '.') ≤ 1)

/-- The computation the `=` branch performs on the two operand strings:
look up the pending operation, apply it, format the result. -/
def evalAndFormat (op a b : String) : Except CalculatorError String :=
  match operationsMap op with
  | none => .error calcErr
  | some f =>
    match f (valueOf a) (valueOf b) with
    | .error e => .error e
    | .ok r => formatResult r

/-! ## Step characterization lemmas -/

theorem calc_AC (s : CalculatorState) : calculate s "AC" = .ok ⟨none, none, none⟩ := by
  simp [calculate]

theorem calc_eq_noop (s : CalculatorState)
    (h : ¬(truthy s.total = true ∧ truthy s.operation = true ∧ truthy s.next = true)) :
    calculate s "=" = .ok s := by
  simp only [calculate]
  rw [if_neg (by decide), if_neg (by decide), if_neg (by decide), if_pos trivial, if_neg h]

theorem calc_op_go (s : CalculatorState) (b : String)
    (hb : b = "+" ∨ b = "−" ∨ b = "×" ∨ b = "÷")
    (h : truthy s.total = true ∧ truthy s.operation = true ∧ truthy s.next = true) :
    calculate s b =
      match operationsMap (getStr s.operation) with
      | none => .error calcErr
      | some f =>
        match f (valueOf (getStr s.total)) (valueOf (getStr s.next)) with
        | .error e => .error e
        | .ok r =>
          match formatResult r with
          | .error e => .error e
          | .ok fr => .ok ⟨some fr, none, some b⟩ := by
  rcases hb with rfl | rfl | rfl | rfl <;>
  · simp only [calculate]
    rw [if_neg (by decide), if_neg (by decide), if_neg (by decide), if_neg (by decide),
      if_pos (by decide), if_pos h]

theorem calc_op_noPending (s : CalculatorState) (b : String)
    (hb : b = "+" ∨ b = "−" ∨ b = "×" ∨ b = "÷")
    (hop : truthy s.operation = false) :
    calculate s b =
      .ok ⟨if truthy s.next then s.next else s.total, none, some b⟩ := by
  rcases hb with rfl | rfl | rfl | rfl <;>
  · simp only [calculate]
    rw [if_neg (by decide), if_neg (by decide), if_neg (by decide), if_neg (by decide),
      if_pos (by decide), if_neg (by simp [hop]), if_pos (by simp [hop])]

theorem calc_eq_go (s : CalculatorState)
    (h : truthy s.total = true ∧ truthy s.operation = true ∧ truthy s.next = true) :
    calculate s "=" =
      match operationsMap (getStr s.operation) with
      | none => .error calcErr
      | some f =>
        match f (valueOf (getStr s.total)) (valueOf (getStr s.next)) with
        | .error e => .error e
        | .ok r =>
          match formatResult r with
          | .error e => .error e
          | .ok fr => .ok ⟨some fr, none, none⟩ := by
  simp only [calculate]
  rw [if_neg (by decide), if_neg (by decide), if_neg (by decide), if_pos trivial, if_pos h]

theorem operationsMap_div :
    operationsMap "÷" = some (fun a b =>
      if b = .num 0 then .error ⟨"Error", "DIVISION_BY_ZERO"⟩
      else .ok (liftNaN (· / ·) a b)) := rfl

/-! ## Claim theorems -/

/-- C6: pressing the clear button (`AC`) on any state returns the empty
state, with all three fields absent, and never signals an error. -/
theorem C6_clear_absorbing : ∀ s : CalculatorState, calculate s "AC" = .ok emptyState :=
  fun s => calc_AC s

/-- C9: equals is a no-op when any of `total`, `operation`, `next` is
absent, and equals is idempotent: whenever it succeeds, pressing it again
leaves the resulting state unchanged. -/
theorem C9_equals_noop_idempotent (s s' : CalculatorState) :
    (s.total = none ∨ s.operation = none ∨ s.next = none → calculate s "=" = .ok s) ∧
    (calculate s "=" = .ok s' → calculate s' "=" = .ok s') := by
  constructor
  · intro h
    apply calc_eq_noop
    rintro ⟨h1, h2, h3⟩
    rcases h with h | h | h
    · rw [h] at h1; simp [truthy] at h1
    · rw [h] at h2; simp [truthy] at h2
    · rw [h] at h3; simp [truthy] at h3
  · intro h
    by_cases hfull : truthy s.total = true ∧ truthy s.operation = true ∧ truthy s.next = true
    · rw [calc_eq_go s hfull] at h
      rcases hm : operationsMap (getStr s.operation) with _ | f <;>
        rw [hm] at h <;> dsimp only at h
      · cases h
      rcases hr : f (valueOf (getStr s.total)) (valueOf (getStr s.next)) with e | r <;>
        rw [hr] at h <;> dsimp only at h
      · cases h
      rcases hf : formatResult r with e | fr <;> rw [hf] at h <;> dsimp only at h
      · cases h
      injection h with h2
      subst h2
      apply calc_eq_noop
      rintro ⟨_, _, h3⟩
      simp [truthy] at h3
    · rw [calc_eq_noop s hfull] at h
      injection h with h2
      subst h2
      exact calc_eq_noop s hfull

/-- C9 witness: on the empty state equals is a no-op, and applying it again
is again a no-op. -/
theorem C9_witness : calculate emptyState "=" = .ok emptyState :=
  (C9_equals_noop_idempotent emptyState emptyState).1 (Or.inl rfl)

/-- C10: an operator press on the empty state just records the operator
(total and next stay absent), and equals never resolves a computation whose
total is absent: it is a no-op on every state with `total = none`, even
when `operation` and `next` are both present. -/
theorem C10_op_on_empty (op : String)
    (hop : op = "+" ∨ op = "−" ∨ op = "×" ∨ op = "÷") (s : CalculatorState)
    (ht : s.total = none) :
    calculate emptyState op = .ok ⟨none, none, some op⟩ ∧ calculate s "=" = .ok s := by
  constructor
  · rcases hop with rfl | rfl | rfl | rfl <;> rfl
  · apply calc_eq_noop
    rintro ⟨h1, _, _⟩
    rw [ht] at h1
    simp [truthy] at h1

/-- C10 witness: pressing `÷` on the empty state records the operator, and
equals on a total-less state with operation and next present is a no-op. -/
theorem C10_witness :
    calculate emptyState "÷" = .ok ⟨none, none, some "÷"⟩ ∧
      calculate ⟨none, some "3", some "÷"⟩ "=" = .ok ⟨none, some "3", some "÷"⟩ := by
  constructor
  · exact (C10_op_on_empty "÷" (by simp) ⟨none, some "3", some "÷"⟩ rfl).1
  · exact (C10_op_on_empty "÷" (by simp) ⟨none, some "3", some "÷"⟩ rfl).2

/-- C7: when `total`, `operation` and `next` are all present, an operator
press behaves exactly like equals followed by recording the new operator;
in particular `{total:"5", next:"3", operation:+}` then `×` yields
`{total:"8", next:absent, operation:×}`. -/
theorem C7_operator_chains (s : CalculatorState) (b : String)
    (hb : b = "+" ∨ b = "−" ∨ b = "×" ∨ b = "÷")
    (h : truthy s.total = true ∧ truthy s.operation = true ∧ truthy s.next = true) :
    calculate s b =
        Except.map (fun s' => { s' with operation := some b }) (calculate s "=") ∧
      calculate ⟨some "5", some "3", some "+"⟩ "×" = .ok ⟨some "8", none, some "×"⟩ := by
  constructor
  · rw [calc_op_go s b hb h, calc_eq_go s h]
    rcases operationsMap (getStr s.operation) with _ | f <;> dsimp only
    · rfl
    rcases f (valueOf (getStr s.total)) (valueOf (getStr s.next)) with e | r <;> dsimp only
    · rfl
    rcases formatResult r with e | fr <;> rfl
  · with_unfolding_all rfl

/-- C7 witness: the chaining law applied at `{total:"5", next:"3",
operation:+}` with `×`. -/
theorem C7_witness :
    calculate ⟨some "5", some "3", some "+"⟩ "×" =
      Except.map (fun s' => { s' with operation := some "×" })
        (calculate ⟨some "5", some "3", some "+"⟩ "=") :=
  (C7_operator_chains ⟨some "5", some "3", some "+"⟩ "×"
    (by simp) ⟨by decide, by decide, by decide⟩).1

theorem truthy_some_of_ne (s : String) (h : s ≠ "") : truthy (some s) = true := by
  simp [truthy, h]

theorem strContains_ne_empty (s : String) (c : Char) (h : strContains s c = true) :
    s ≠ "" := by
  intro he
  subst he
  simp [strContains] at h

/-- C4: on any state `{total, operation:÷, next}` whose operands are present
and whose `next` parses to exactly zero, pressing equals or any operator
signals `DIVISION_BY_ZERO` (and hence never `OVERFLOW`: the zero divisor is
checked before the division is performed). -/
theorem C4_divide_by_zero (t n b : String) (ht : t ≠ "")
    (hz : parseFloat n = some 0)
    (hb : b = "=" ∨ b = "+" ∨ b = "−" ∨ b = "×" ∨ b = "÷") :
    calculate ⟨some t, some n, some "÷"⟩ b = .error ⟨"Error", "DIVISION_BY_ZERO"⟩ := by
  have hn : n ≠ "" := by
    intro h
    rw [h] at hz
    exact absurd hz (by decide)
  have hfull : truthy (some t) = true ∧ truthy (some "÷") = true ∧
      truthy (some n) = true :=
    ⟨truthy_some_of_ne t ht, by decide, truthy_some_of_ne n hn⟩
  have hv : valueOf n = .num 0 := by simp [valueOf, hz]
  rcases hb with rfl | rfl | rfl | rfl | rfl
  · rw [calc_eq_go _ hfull]
    dsimp only [getStr]
    rw [operationsMap_div]
    dsimp only
    rw [hv, if_pos rfl]
  all_goals
  · rw [calc_op_go _ _ (by simp) hfull]
    dsimp only [getStr]
    rw [operationsMap_div]
    dsimp only
    rw [hv, if_pos rfl]

/-- C4 witness: `{total:"5", operation:÷, next:"0"}` then equals signals
`DIVISION_BY_ZERO`. -/
theorem C4_witness :
    calculate ⟨some "5", some "0", some "÷"⟩ "=" = .error ⟨"Error", "DIVISION_BY_ZERO"⟩ :=
  C4_divide_by_zero "5" "0" "=" (by decide) (by with_unfolding_all rfl) (Or.inl rfl)

/-- C8: (1) a second decimal point while `next` already contains one is a
no-op; (2) a decimal point with no `next` yet starts the entry `"0."`;
(3) a digit pressed while `next` is exactly `"0"` replaces the zero instead
of being appended. -/
theorem C8_digit_entry (s : CalculatorState) (nn : String) (d : Char) :
    (s.next = some nn → strContains nn '.' = true → calculate s "." = .ok s) ∧
    (s.next = none → calculate s "." = .ok { s with next := some "0." }) ∧
    (s.next = some "0" → d ∈ digChars →
      ∃ t', calculate s (String.mk [d]) = .ok ⟨t', some (String.mk [d]), s.operation⟩) := by
  refine ⟨?_, ?_, ?_⟩
  · intro hn hc
    have hne : nn ≠ "" := strContains_ne_empty nn '.' hc
    simp only [calculate]
    rw [if_neg (by decide), if_neg (by decide), if_neg (by decide), if_neg (by decide),
      if_neg (by decide), if_pos (by decide), hn,
      if_pos ⟨trivial, truthy_some_of_ne nn hne, hc⟩]
  · intro hn
    simp only [calculate]
    rw [if_neg (by decide), if_neg (by decide), if_neg (by decide), if_neg (by decide),
      if_neg (by decide), if_pos (by decide), hn,
      if_neg (by rintro ⟨-, h2, -⟩; simp [truthy] at h2),
      if_pos ⟨trivial, by simp [truthy]⟩]
  · intro hn hd
    fin_cases hd <;>
    · simp only [calculate]
      rw [if_neg (by decide), if_neg (by decide), if_neg (by decide), if_neg (by decide),
        if_neg (by decide), if_pos (by decide), hn,
        if_neg (by rintro ⟨h1, -, -⟩; exact absurd h1 (by decide)),
        if_neg (by rintro ⟨h1, -⟩; exact absurd h1 (by decide))]
      by_cases hop : truthy s.operation = true
      · rw [if_pos hop, if_pos (by decide), if_pos (by decide)]
        exact ⟨s.total, rfl⟩
      · rw [if_neg hop, if_pos (by decide), if_pos (by decide)]
        exact ⟨none, rfl⟩

/-- C8 witness: the three digit-entry rules at concrete states: a second
dot on `next="3."` is a no-op, a dot on an empty entry yields `"0."`, and
pressing `5` on `next="0"` yields `next="5"`. -/
theorem C8_witness :
    calculate ⟨none, some "3.", none⟩ "." = .ok ⟨none, some "3.", none⟩ ∧
      calculate emptyState "." = .ok ⟨none, some "0.", none⟩ ∧
      ∃ t', calculate ⟨none, some "0", none⟩ "5" = .ok ⟨t', some "5", none⟩ := by
  refine ⟨?_, ?_, ?_⟩
  · exact (C8_digit_entry ⟨none, some "3.", none⟩ "3." '5').1 rfl (by decide)
  · exact (C8_digit_entry emptyState "3." '5').2.1 rfl
  · exact (C8_digit_entry ⟨none, some "0", none⟩ "0" '5').2.2 rfl (by decide)

/-- C3 (code bug): pressing `0` then `.` from the empty state stores
`next = "."`, which `parseFloat` cannot parse (NaN): the stored string is
not a finite decimal, violating the stated invariant. -/
theorem C3_zero_dot_bug :
    pressList emptyState ["0", "."] = .ok ⟨none, some ".", none⟩ ∧
      parseFloat "." = none := by
  constructor
  · rfl
  · rfl

/-- C2 counterexample: thirteen `9` presses from the empty state store a
13-character `next` whose value exceeds `MAX_SAFE_VALUE`, with no error
signaled: plain digit entry bypasses every bound of the formatting guard. -/
theorem C2_unbounded_digit_entry :
    pressList emptyState (List.replicate 13 "9") =
        .ok ⟨none, some "9999999999999", none⟩ ∧
      MAX_DISPLAY_LENGTH < "9999999999999".length ∧
      parseFloat "9999999999999" = some 9999999999999 ∧
      MAX_SAFE_VALUE < (9999999999999 : ℚ) := by
  refine ⟨?_, by decide, ?_, ?_⟩
  · rfl
  · with_unfolding_all rfl
  · norm_num [MAX_SAFE_VALUE]

/-- C5: the formatting guard signals `OVERFLOW` (never returns a string)
whenever the value is non-finite, or its magnitude exceeds
`MAX_SAFE_VALUE`, or its `toString` requires scientific notation, or its
(possibly rounded) display string exceeds 12 characters. -/
theorem C5_overflow_guard (v : JSNum)
    (h : jsIsFinite v = false ∨
      (∃ q, v = .num q ∧ (MAX_SAFE_VALUE < q ∨ q < MIN_SAFE_VALUE)) ∨
      (∃ q, v = .num q ∧ q ≠ 0 ∧ 1 / 10 ^ 8 ≤ |q| ∧
        (strContains (jsToString q) 'e' = true ∨
          MAX_DISPLAY_LENGTH < (displayStr q).length))) :
    formatResult v = .error ⟨"Error", "OVERFLOW"⟩ := by
  rcases h with hfin | ⟨q, rfl, hq⟩ | ⟨q, rfl, hq0, hsmall, hor⟩
  · cases v with
    | num q => simp [jsIsFinite] at hfin
    | nan => rfl
    | posInf => rfl
    | negInf => rfl
  · have hq0 : q ≠ 0 := by
      rintro rfl
      rcases hq with hq | hq <;> norm_num [MAX_SAFE_VALUE, MIN_SAFE_VALUE] at hq
    simp only [formatResult]
    rw [if_neg hq0, if_pos hq]
  · simp only [formatResult]
    rw [if_neg hq0]
    by_cases hover : MAX_SAFE_VALUE < q ∨ q < MIN_SAFE_VALUE
    · rw [if_pos hover]
    rw [if_neg hover, if_neg (not_lt.mpr hsmall)]
    by_cases he : strContains (jsToString q) 'e' = true
    · rw [if_pos he]
    rw [if_neg he]
    have hlen : MAX_DISPLAY_LENGTH < (displayStr q).length := by
      rcases hor with he' | hl
      · exact absurd he' he
      · exact hl
    dsimp only [displayStr] at hlen
    rw [if_pos hlen]

/-- C5 witness: the value `1e13` exceeds `MAX_SAFE_VALUE` and is turned
into an `OVERFLOW` error by the guard. -/
theorem C5_witness : formatResult (.num (10 ^ 13)) = .error ⟨"Error", "OVERFLOW"⟩ :=
  C5_overflow_guard _ (Or.inr (Or.inl ⟨10 ^ 13, rfl,
    Or.inl (by norm_num [MAX_SAFE_VALUE])⟩))

/-! ## Character-level facts about the decimal printer -/

theorem strData_append (a b : String) : (a ++ b).data = a.data ++ b.data := by
  cases a
  cases b
  rfl

theorem strContains_iff_mem (s : String) (c : Char) :
    strContains s c = true ↔ c ∈ s.data := by
  simp [strContains]

theorem strContains_eq_false_iff (s : String) (c : Char) :
    strContains s c = false ↔ c ∉ s.data := by
  simp [strContains]

theorem digitChar_mem (k : ℕ) : digitChar k ∈ digChars := by
  rcases k with _ | _ | _ | _ | _ | _ | _ | _ | _ | k <;> simp [digitChar, digChars]

theorem natDigs_subset (fuel : ℕ) :
    ∀ n c, c ∈ natDigs fuel n → c ∈ digChars := by
  induction fuel with
  | zero => intro n c hc; simp [natDigs] at hc
  | succ fuel ih =>
    intro n c hc
    cases n with
    | zero => simp [natDigs] at hc
    | succ m =>
      rw [show natDigs (fuel + 1) (m + 1) =
        natDigs fuel ((m + 1) / 10) ++ [digitChar ((m + 1) % 10)] from rfl] at hc
      rcases List.mem_append.mp hc with h | h
      · exact ih _ c h
      · simp at h
        rw [h]
        exact digitChar_mem _
  
theorem natStr_subset (n : ℕ) (c : Char) (hc : c ∈ (natStr n).data) : c ∈ digChars := by
  rw [natStr] at hc
  split at hc
  · simp at hc
    rw [hc]
    simp [digChars]
  · exact natDigs_subset _ _ _ hc

theorem fracStr_subset (fuel : ℕ) :
    ∀ n d c, c ∈ fracStr n d fuel → c ∈ digChars := by
  induction fuel with
  | zero => intro n d c hc; simp [fracStr] at hc
  | succ fuel ih =>
    intro n d c hc
    rw [fracStr] at hc
    split at hc
    · simp at hc
    · rcases List.mem_cons.mp hc with h | h
      · rw [h]; exact digitChar_mem _
      · exact ih _ d c h

theorem mem_digChars_ne (c : Char) (hc : c ∈ digChars) : c ≠ '.' ∧ c ≠ 'e' ∧ c ≠ '-' := by
  fin_cases hc <;> refine ⟨by decide, by decide, by decide⟩

theorem digChars_subset_numChars : ∀ c ∈ digChars, c ∈ numChars := by decide

theorem plainDec_subset (q : ℚ) (c : Char) (hc : c ∈ (plainDec q).data) :
    c ∈ numChars := by
  rw [plainDec] at hc
  split at hc
  · exact digChars_subset_numChars c (natStr_subset _ c hc)
  · rw [strData_append, strData_append] at hc
    rcases List.mem_append.mp hc with h | h
    · rcases List.mem_append.mp h with h2 | h2
      · exact digChars_subset_numChars c (natStr_subset _ c h2)
      · simp at h2
        rw [h2]
        decide
    · exact digChars_subset_numChars c (fracStr_subset _ _ _ c h)

theorem dropWhile_append_all (p : Char → Bool) (A B : List Char)
    (hA : ∀ a ∈ A, p a = true) : (A ++ B).dropWhile p = B.dropWhile p := by
  induction A with
  | nil => rfl
  | cons x xs ih =>
    simp only [List.cons_append, List.dropWhile_cons, hA x (by simp)]
    exact ih (fun a ha => hA a (by simp [ha]))

theorem fracPartStr_data_eq (s : String) (A B : List Char)
    (hs : s.data = A ++ '.' :: B) (hA : ∀ a ∈ A, a ≠ '.') (hB : ∀ b ∈ B, b ≠ '.') :
    fracPartStr s = String.mk B := by
  rw [fracPartStr, hs]
  rw [dropWhile_append_all _ A _ (fun a ha => by simp [hA a ha])]
  rw [List.dropWhile_cons]
  rw [if_neg (by simp)]
  simp only [List.drop_succ_cons, List.drop_zero]
  rw [List.takeWhile_eq_self_iff.mpr (fun b hb => by simp [hB b hb])]

/-- If `n / d` becomes an integer after `j` more decimal shifts, the long
division emits at most `j` digits. -/
theorem fracStr_length_le (d : ℕ) (hd : 0 < d) :
    ∀ j n fuel, n < d → (n * 10 ^ j) % d = 0 → (fracStr n d fuel).length ≤ j := by
  intro j
  induction j with
  | zero =>
    intro n fuel hn h0
    have hn0 : n = 0 := by simpa [Nat.mod_eq_of_lt hn] using h0
    subst hn0
    cases fuel <;> simp [fracStr]
  | succ j ih =>
    intro n fuel hn h0
    cases fuel with
    | zero => simp [fracStr]
    | succ fuel =>
      rw [fracStr]
      split
      · simp
      · simp only [List.length_cons]
        have h1 : n * 10 % d < d := Nat.mod_lt _ hd
        have h2 : (n * 10 % d * 10 ^ j) % d = 0 := by
          have hmod : (n * 10 % d * 10 ^ j) % d = (n * 10 * 10 ^ j) % d :=
            Nat.ModEq.mul_right _ (Nat.mod_modEq _ _)
          rw [hmod, show n * 10 * 10 ^ j = n * 10 ^ (j + 1) by ring]
          exact h0
        have := ih (n * 10 % d) fuel h1 h2
        omega

theorem sub_intCast_den (x : ℚ) (k : ℤ) : (x - k).den ∣ x.den := by
  have hd : ((x.den : ℚ)) ≠ 0 := by
    exact_mod_cast x.den_pos.ne'
  have h1 : x - k = Rat.divInt (x.num - k * x.den) (x.den : ℤ) := by
    rw [Rat.divInt_eq_div]
    push_cast
    rw [sub_div, Rat.num_div_den, mul_div_assoc, div_self hd, mul_one]
  have h2 := Rat.den_dvd (x.num - k * x.den) (x.den : ℤ)
  rw [← h1] at h2
  exact_mod_cast h2

theorem abs_den_eq (q : ℚ) : |q|.den = q.den := by
  rcases abs_cases q with ⟨h, -⟩ | ⟨h, -⟩ <;> rw [h]
  exact Rat.neg_den q

/-- When the denominator divides `10 ^ 8`, at most 8 fractional digits are
printed. -/
theorem fracDigits_length_le (x : ℚ) (h : x.den ∣ 10 ^ 8) :
    (fracDigits x).length ≤ 8 := by
  rw [fracDigits]
  have hdvd : (x - ⌊x⌋).den ∣ 10 ^ 8 := (sub_intCast_den x ⌊x⌋).trans h
  have hpos : (0:ℚ) ≤ x - ⌊x⌋ := by
    have := Int.floor_le x
    linarith
  have hlt : x - ⌊x⌋ < 1 := by
    have := Int.lt_floor_add_one x
    linarith
  have hnum : (x - ⌊x⌋).num < ((x - ⌊x⌋).den : ℤ) :=
    Rat.lt_one_iff_num_lt_denom.mp hlt
  have hd0 : (x - ⌊x⌋).den ≠ 0 := (x - ⌊x⌋).den_pos.ne'
  have hn : (x - ⌊x⌋).num.toNat < (x - ⌊x⌋).den := (Int.toNat_lt' hd0).mpr hnum
  apply fracStr_length_le _ (x - ⌊x⌋).den_pos 8 _ 17 hn
  exact Nat.mod_eq_zero_of_dvd (Dvd.dvd.mul_left hdvd _)

theorem mem_sign_eq (x : ℚ) (a : Char)
    (ha : a ∈ (if x < 0 then "-" else "").data) : a = '-' := by
  split at ha
  · rw [show "-".data = ['-'] from rfl] at ha
    simpa using ha
  · rw [show "".data = ([] : List Char) from rfl] at ha
    simp at ha

theorem jsToString_plain (q : ℚ) (hq : q ≠ 0)
    (hr : ¬(|q| < 1 / 10 ^ 6 ∨ (10 : ℚ) ^ 21 ≤ |q|)) :
    jsToString q = (if q < 0 then "-" else "") ++ plainDec |q| := by
  simp only [jsToString]
  rw [if_neg hq, if_neg hr]

theorem jsToString_exp_has_e (q : ℚ) (hq : q ≠ 0)
    (hr : |q| < 1 / 10 ^ 6 ∨ (10 : ℚ) ^ 21 ≤ |q|) :
    strContains (jsToString q) 'e' = true := by
  simp only [jsToString]
  rw [if_neg hq, if_pos hr]
  refine (strContains_iff_mem _ _).mpr ?_
  rw [strData_append, strData_append, strData_append, strData_append]
  simp only [List.mem_append]
  exact Or.inl (Or.inl (Or.inr (by decide)))

theorem jsToString_plain_no_e (q : ℚ) (hq : q ≠ 0)
    (hr : ¬(|q| < 1 / 10 ^ 6 ∨ (10 : ℚ) ^ 21 ≤ |q|)) :
    strContains (jsToString q) 'e' = false := by
  rw [jsToString_plain q hq hr, strContains_eq_false_iff, strData_append]
  intro hmem
  rcases List.mem_append.mp hmem with h | h
  · exact absurd (mem_sign_eq q 'e' h) (by decide)
  · exact absurd (plainDec_subset _ _ h) (by decide)

/-- For a value with denominator dividing `10 ^ 8` printed in plain form,
the fractional segment of the output has at most 8 digits. -/
theorem plain_frac_short (x : ℚ) (hx : x ≠ 0)
    (hr : ¬(|x| < 1 / 10 ^ 6 ∨ (10 : ℚ) ^ 21 ≤ |x|)) (hden : x.den ∣ 10 ^ 8) :
    strContains (jsToString x) '.' = true →
      (fracPartStr (jsToString x)).length ≤ MAX_DECIMAL_PLACES := by
  intro hdot
  rw [jsToString_plain x hx hr] at hdot ⊢
  by_cases hfds : fracDigits |x| = []
  · exfalso
    rw [strContains_iff_mem, strData_append] at hdot
    rcases List.mem_append.mp hdot with h | h
    · exact absurd (mem_sign_eq x '.' h) (by decide)
    · rw [plainDec, if_pos hfds] at h
      exact absurd (natStr_subset _ _ h) (by decide)
  · have hdata : (((if x < 0 then "-" else "") ++ plainDec |x|)).data =
        ((if x < 0 then "-" else "").data ++ (natStr (⌊|x|⌋).toNat).data) ++
          '.' :: fracDigits |x| := by
      rw [strData_append, plainDec, if_neg hfds, strData_append, strData_append]
      simp [List.append_assoc]
    rw [fracPartStr_data_eq _ _ _ hdata ?_ ?_]
    · have h8 : |x|.den ∣ 10 ^ 8 := by
        rw [abs_den_eq]
        exact hden
      have := fracDigits_length_le |x| h8
      simpa [MAX_DECIMAL_PLACES] using this
    · intro a ha
      rcases List.mem_append.mp ha with h | h
      · rw [mem_sign_eq x a h]
        decide
      · exact (mem_digChars_ne a (natStr_subset _ a h)).1
    · intro b hb
      exact (mem_digChars_ne b (fracStr_subset _ _ _ b hb)).1

theorem roundHalfAway_bounds (x : ℚ) : |((roundHalfAway x : ℤ) : ℚ) - x| ≤ 1 / 2 := by
  rw [roundHalfAway]
  split
  · push_cast
    rw [abs_le]
    constructor
    · linarith [Int.floor_le (-x + 1 / 2), Int.lt_floor_add_one (-x + 1 / 2)]
    · linarith [Int.floor_le (-x + 1 / 2), Int.lt_floor_add_one (-x + 1 / 2)]
  · rw [abs_le]
    constructor
    · linarith [Int.floor_le (x + 1 / 2), Int.lt_floor_add_one (x + 1 / 2)]
    · linarith [Int.floor_le (x + 1 / 2), Int.lt_floor_add_one (x + 1 / 2)]

theorem toFixed8_den_dvd (q : ℚ) : (toFixed8 q).den ∣ 10 ^ 8 := by
  rw [toFixed8]
  have h : ((roundHalfAway (q * 10 ^ 8) : ℤ) : ℚ) / 10 ^ 8 =
      Rat.divInt (roundHalfAway (q * 10 ^ 8)) ((10 : ℤ) ^ 8) := by
    rw [Rat.divInt_eq_div]
    norm_num
  rw [h]
  have h2 := Rat.den_dvd (roundHalfAway (q * 10 ^ 8)) ((10 : ℤ) ^ 8)
  exact_mod_cast h2

theorem toFixed8_range (q : ℚ) (h1 : 1 / 10 ^ 6 ≤ |q|) (h2 : |q| ≤ MAX_SAFE_VALUE) :
    toFixed8 q ≠ 0 ∧ ¬(|toFixed8 q| < 1 / 10 ^ 6 ∨ (10 : ℚ) ^ 21 ≤ |toFixed8 q|) := by
  obtain ⟨M, hM⟩ : ∃ M : ℚ, ((roundHalfAway (q * 10 ^ 8) : ℤ) : ℚ) = M := ⟨_, rfl⟩
  have hb : |M - q * 10 ^ 8| ≤ 1 / 2 := hM ▸ roundHalfAway_bounds (q * 10 ^ 8)
  have habs : |q * 10 ^ 8| = |q| * 10 ^ 8 := by
    rw [abs_mul]
    norm_num
  have habs_tf : |toFixed8 q| = |M| / 10 ^ 8 := by
    rw [toFixed8, hM, abs_div]
    norm_num
  have htri1 : |q| * 10 ^ 8 - 1 / 2 ≤ |M| := by
    have step : |q * 10 ^ 8| ≤ |M| + |M - q * 10 ^ 8| := by
      calc |q * 10 ^ 8| = |M - (M - q * 10 ^ 8)| := by
            congr 1
            ring
        _ ≤ |M| + |M - q * 10 ^ 8| := abs_sub _ _
    rw [habs] at step
    set B := |M - q * 10 ^ 8|
    linarith
  have htri2 : |M| ≤ |q| * 10 ^ 8 + 1 / 2 := by
    have step : |M| ≤ |q * 10 ^ 8| + |M - q * 10 ^ 8| := by
      calc |M| = |q * 10 ^ 8 + (M - q * 10 ^ 8)| := by
            congr 1
            ring
        _ ≤ |q * 10 ^ 8| + |M - q * 10 ^ 8| := abs_add _ _
    rw [habs] at step
    set B := |M - q * 10 ^ 8|
    linarith
  have h100 : (100 : ℚ) ≤ |q| * 10 ^ 8 := by
    have := mul_le_mul_of_nonneg_right h1 (show (0:ℚ) ≤ 10 ^ 8 by norm_num)
    linarith
  have hm : (100 : ℚ) ≤ |M| := by
    rcases le_or_lt (100 : ℚ) |M| with h | h
    · exact h
    · exfalso
      have hint : |M| = ((|roundHalfAway (q * 10 ^ 8)| : ℤ) : ℚ) := by
        rw [← hM]
        push_cast
        rfl
      have h99i : |roundHalfAway (q * 10 ^ 8)| ≤ 99 := by
        by_contra hcon
        push_neg at hcon
        have hc : (100 : ℤ) ≤ |roundHalfAway (q * 10 ^ 8)| := by omega
        have : (100 : ℚ) ≤ |M| := by
          rw [hint]
          exact_mod_cast hc
        linarith
      have h99 : |M| ≤ 99 := by
        rw [hint]
        exact_mod_cast h99i
      linarith
  have hlow : 1 / 10 ^ 6 ≤ |toFixed8 q| := by
    rw [habs_tf, le_div_iff₀ (show (0:ℚ) < 10 ^ 8 by norm_num)]
    calc (1 : ℚ) / 10 ^ 6 * 10 ^ 8 = 100 := by norm_num
      _ ≤ _ := hm
  have hhigh : |toFixed8 q| < (10 : ℚ) ^ 21 := by
    rw [habs_tf, div_lt_iff₀ (show (0:ℚ) < 10 ^ 8 by norm_num)]
    have hq : |q| ≤ 999999999999 := h2
    calc |M| ≤ |q| * 10 ^ 8 + 1 / 2 := htri2
      _ < (10 : ℚ) ^ 21 * 10 ^ 8 := by nlinarith
  constructor
  · intro h0
    rw [h0] at hlow
    simp at hlow
    linarith
  · rintro (h | h)
    · linarith
    · linarith

/-- C2 (amended): every string the formatting guard `formatResult` accepts
respects the bounds: at most 12 characters, no scientific notation, at most
8 fractional digits, and the formatted value's magnitude is at most
`MAX_SAFE_VALUE` (out-of-range values are turned into errors instead).
The bounds hold for values routed through the guard — plain digit entry
bypasses it (see the counterexample). -/
theorem C2_formatResult_bounds (v : JSNum) (s : String)
    (h : formatResult v = .ok s) :
    s.length ≤ MAX_DISPLAY_LENGTH ∧
    strContains s 'e' = false ∧
    (∀ q, v = .num q → |q| ≤ MAX_SAFE_VALUE) ∧
    (strContains s '.' = true → (fracPartStr s).length ≤ MAX_DECIMAL_PLACES) := by
  cases v with
  | nan => cases h
  | posInf => cases h
  | negInf => cases h
  | num q =>
    simp only [formatResult] at h
    by_cases hq0 : q = 0
    · rw [if_pos hq0] at h
      injection h with hs
      subst hs
      refine ⟨by decide, by decide, ?_, by decide⟩
      intro q' hq'
      injection hq' with h'
      subst h'
      rw [hq0]
      norm_num [MAX_SAFE_VALUE]
    rw [if_neg hq0] at h
    by_cases hover : MAX_SAFE_VALUE < q ∨ q < MIN_SAFE_VALUE
    · rw [if_pos hover] at h
      cases h
    rw [if_neg hover] at h
    push_neg at hover
    have hqmax : |q| ≤ MAX_SAFE_VALUE := by
      rw [abs_le]
      have h2 := hover.2
      rw [MIN_SAFE_VALUE] at h2
      rw [MAX_SAFE_VALUE] at *
      exact ⟨by linarith, hover.1⟩
    by_cases hsmall : |q| < 1 / 10 ^ 8
    · rw [if_pos hsmall] at h
      injection h with hs
      subst hs
      exact ⟨by decide, by decide,
        fun q' hq' => by injection hq' with h'; subst h'; exact hqmax, by decide⟩
    rw [if_neg hsmall] at h
    by_cases he : strContains (jsToString q) 'e' = true
    · rw [if_pos he] at h
      cases h
    rw [if_neg he] at h
    have hrange : ¬(|q| < 1 / 10 ^ 6 ∨ (10 : ℚ) ^ 21 ≤ |q|) := by
      intro hcon
      exact he (jsToString_exp_has_e q hq0 hcon)
    by_cases hlen : MAX_DISPLAY_LENGTH <
        (if strContains (jsToString q) '.' = true ∧
            MAX_DECIMAL_PLACES < (fracPartStr (jsToString q)).length then
          jsToString (toFixed8 q)
        else jsToString q).length
    · rw [if_pos hlen] at h
      cases h
    rw [if_neg hlen] at h
    injection h with hs
    subst hs
    push_neg at hlen
    have h16 : 1 / 10 ^ 6 ≤ |q| := by
      push_neg at hrange
      exact hrange.1
    refine ⟨hlen, ?_,
      fun q' hq' => by injection hq' with h'; subst h'; exact hqmax, ?_⟩
    · by_cases hround : strContains (jsToString q) '.' = true ∧
          MAX_DECIMAL_PLACES < (fracPartStr (jsToString q)).length
      · rw [if_pos hround]
        obtain ⟨hnz, hr2⟩ := toFixed8_range q h16 hqmax
        exact jsToString_plain_no_e _ hnz hr2
      · rw [if_neg hround]
        simp only [Bool.not_eq_true] at he
        exact he
    · intro hdot
      by_cases hround : strContains (jsToString q) '.' = true ∧
          MAX_DECIMAL_PLACES < (fracPartStr (jsToString q)).length
      · rw [if_pos hround] at hdot ⊢
        obtain ⟨hnz, hr2⟩ := toFixed8_range q h16 hqmax
        exact plain_frac_short (toFixed8 q) hnz hr2 (toFixed8_den_dvd q) hdot
      · rw [if_neg hround] at hdot ⊢
        push_neg at hround
        exact hround hdot

/-- C2 (amended) witness: the guard accepts `0.5` as `"0.5"`, which meets
every bound. -/
theorem C2_amended_witness :
    formatResult (.num (1 / 2)) = .ok "0.5" ∧
      "0.5".length ≤ MAX_DISPLAY_LENGTH ∧
      strContains "0.5" 'e' = false ∧
      (∀ q, JSNum.num (1 / 2 : ℚ) = .num q → |q| ≤ MAX_SAFE_VALUE) ∧
      (strContains "0.5" '.' = true → (fracPartStr "0.5").length ≤ MAX_DECIMAL_PLACES) := by
  have h : formatResult (.num (1 / 2)) = .ok "0.5" := by with_unfolding_all rfl
  exact ⟨h, C2_formatResult_bounds (.num (1 / 2)) "0.5" h⟩

/-! ## Typing a literal, one button per character -/

theorem str_ne_of_data_ne (s t : String) (h : s.data ≠ t.data) : s ≠ t := by
  intro he
  exact h (he ▸ rfl)

theorem calc_append_core (state : CalculatorState) (btn : String) (p : String)
    (h1 : btn ≠ "AC") (h2 : btn ≠ "±") (h3 : btn ≠ "%") (h4 : btn ≠ "=")
    (h5 : ¬(btn = "+" ∨ btn = "−" ∨ btn = "×" ∨ btn = "÷"))
    (h6 : isNumber btn = true)
    (hnext : state.next = some p) (hp : p ≠ "") (hp0 : p ≠ "0")
    (hdot : btn = "." → strContains p '.' = false)
    (hTO : truthy state.operation = true ∨
      (state.total = none ∧ state.operation = none)) :
    calculate state btn = .ok ⟨state.total, some (p ++ btn), state.operation⟩ := by
  obtain ⟨T, N, O⟩ := state
  simp only at hnext
  subst hnext
  simp only [calculate]
  rw [if_neg h1, if_neg h2, if_neg h3, if_neg h4, if_neg h5, if_pos h6]
  rw [if_neg (by
    rintro ⟨hb, -, hcont⟩
    rw [show getStr (some p) = p from rfl] at hcont
    rw [hdot hb] at hcont
    cases hcont)]
  rw [if_neg (by
    rintro ⟨-, hco⟩
    exact hco (truthy_some_of_ne p hp))]
  simp only at hTO
  rcases hTO with hO | ⟨hT, hO⟩
  · rw [if_pos hO, if_pos (truthy_some_of_ne p hp)]
    rw [show getStr (some p) = p from rfl, if_neg hp0]
  · subst hT
    subst hO
    rw [if_neg (by simp [truthy]), if_pos (truthy_some_of_ne p hp)]
    rw [show getStr (some p) = p from rfl, if_neg hp0]

theorem calc_fresh_core (state : CalculatorState) (btn : String)
    (h1 : btn ≠ "AC") (h2 : btn ≠ "±") (h3 : btn ≠ "%") (h4 : btn ≠ "=")
    (h5 : ¬(btn = "+" ∨ btn = "−" ∨ btn = "×" ∨ btn = "÷"))
    (h6 : isNumber btn = true) (h7 : btn ≠ ".")
    (hnext : state.next = none)
    (hTO : truthy state.operation = true ∨
      (state.total = none ∧ state.operation = none)) :
    calculate state btn = .ok ⟨state.total, some btn, state.operation⟩ := by
  obtain ⟨T, N, O⟩ := state
  simp only at hnext
  subst hnext
  simp only [calculate]
  rw [if_neg h1, if_neg h2, if_neg h3, if_neg h4, if_neg h5, if_pos h6]
  rw [if_neg (by rintro ⟨-, hco, -⟩; simp [truthy] at hco)]
  rw [if_neg (by rintro ⟨hb, -⟩; exact h7 hb)]
  simp only at hTO
  rcases hTO with hO | ⟨hT, hO⟩
  · rw [if_pos hO, if_neg (by simp [truthy])]
  · subst hT
    subst hO
    rw [if_neg (by simp [truthy]), if_neg (by simp [truthy])]

theorem press_append (T O : Option String) (p : String) (d : Char)
    (hTO : truthy O = true ∨ (T = none ∧ O = none))
    (hp : p ≠ "") (hp0 : p ≠ "0") (hd : d ∈ numChars)
    (hdot : d = '.' → strContains p '.' = false) :
    calculate ⟨T, some p, O⟩ (String.mk [d]) =
      .ok ⟨T, some (p ++ String.mk [d]), O⟩ := by
  fin_cases hd <;>
    refine calc_append_core ⟨T, some p, O⟩ _ p (by decide) (by decide) (by decide)
      (by decide) (by decide) (by decide) rfl hp hp0 ?_ hTO <;>
    intro hb <;>
    first
      | exact absurd hb (by decide)
      | exact hdot rfl

theorem press_fresh (T O : Option String) (d : Char)
    (hTO : truthy O = true ∨ (T = none ∧ O = none)) (hd : d ∈ digChars) :
    calculate ⟨T, none, O⟩ (String.mk [d]) = .ok ⟨T, some (String.mk [d]), O⟩ := by
  fin_cases hd <;>
    exact calc_fresh_core ⟨T, none, O⟩ _ (by decide) (by decide) (by decide)
      (by decide) (by decide) (by decide) (by decide) rfl hTO

theorem pressList_cons (s : CalculatorState) (b : String) (l : List String) :
    pressList s (b :: l) =
      match calculate s b with
      | .error e => .error e
      | .ok s2 => pressList s2 l := rfl

theorem pressList_append (s : CalculatorState) (l1 l2 : List String) :
    pressList s (l1 ++ l2) =
      match pressList s l1 with
      | .error e => .error e
      | .ok s2 => pressList s2 l2 := by
  induction l1 generalizing s with
  | nil => rfl
  | cons b l1 ih =>
    rw [List.cons_append, pressList_cons, pressList_cons]
    rcases calculate s b with e | s2
    · rfl
    · exact ih s2

theorem typing_list (T O : Option String)
    (hTO : truthy O = true ∨ (T = none ∧ O = none)) :
    ∀ (cs : List Char) (p : String), p ≠ "" → p ≠ "0" →
      (∀ c ∈ cs, c ∈ numChars) →
      (p.data ++ cs).countP (fun c => c == '.') ≤ 1 →
      pressList ⟨T, some p, O⟩ (cs.map (fun c => String.mk [c])) =
        .ok ⟨T, some ⟨p.data ++ cs⟩, O⟩ := by
  intro cs
  induction cs with
  | nil =>
    intro p hp hp0 _ _
    cases p
    simp [pressList]
  | cons c cs ih =>
    intro p hp hp0 hmem hdots
    have hpd : p.data ≠ [] := by
      intro hd
      apply hp
      cases p
      simp only at hd
      rw [hd]
    have hdot : c = '.' → strContains p '.' = false := by
      intro hc
      subst hc
      simp only [List.countP_append, List.countP_cons, beq_self_eq_true,
        if_true] at hdots
      rw [strContains_eq_false_iff]
      intro hmem2
      have hpos : 0 < p.data.countP (fun x => x == '.') :=
        List.countP_pos_iff.mpr ⟨'.', hmem2, rfl⟩
      omega
    rw [List.map_cons, pressList_cons,
      press_append T O p c hTO hp hp0 (hmem c (by simp)) hdot]
    dsimp only
    have hdata : (p ++ String.mk [c]).data = p.data ++ [c] := by
      rw [strData_append]
    have hne : p ++ String.mk [c] ≠ "" := by
      apply str_ne_of_data_ne
      rw [hdata]
      simp
    have hne0 : p ++ String.mk [c] ≠ "0" := by
      apply str_ne_of_data_ne
      rw [hdata,
        show ("0" : String).data = ['0'] from rfl]
      intro hcon
      have hlc := congrArg List.length hcon
      have hlp := List.length_pos.mpr hpd
      simp only [List.length_append, List.length_cons, List.length_nil] at hlc
      omega
    have := ih (p ++ String.mk [c]) hne hne0
      (fun x hx => hmem x (by simp [hx]))
      (by rw [hdata]; simpa [List.append_assoc] using hdots)
    rw [hdata] at this
    rw [this]
    simp [List.append_assoc]

theorem goodLit_spec (a : String) (h : goodLit a = true) :
    ∃ c cs, a.data = c :: cs ∧ c ∈ digChars ∧ (c = '0' → cs = []) ∧
      (∀ x ∈ cs, x ∈ numChars) ∧
      (a.data.countP (fun x => x == '.') ≤ 1) := by
  rw [goodLit] at h
  cases hd : a.data with
  | nil =>
    rw [hd] at h
    cases h
  | cons c cs =>
    rw [hd] at h
    simp only [Bool.and_eq_true, Bool.or_eq_true, Bool.not_eq_true', decide_eq_true_eq,
      List.all_eq_true] at h
    refine ⟨c, cs, rfl, ?_, ?_, ?_, ?_⟩
    · have := h.1.1.1
      simpa using this
    · intro hc
      subst hc
      rcases h.1.1.2 with h2 | h2
      · simp at h2
      · simpa using h2
    · intro x hx
      have := h.1.2 x hx
      simpa using this
    · exact h.2

theorem goodLit_ne_empty (a : String) (h : goodLit a = true) : a ≠ "" := by
  obtain ⟨c, cs, hd, -, -, -, -⟩ := goodLit_spec a h
  apply str_ne_of_data_ne
  rw [hd]
  simp

theorem type_literal (T O : Option String)
    (hTO : truthy O = true ∨ (T = none ∧ O = none))
    (a : String) (ha : goodLit a = true) :
    pressList ⟨T, none, O⟩ (buttons a) = .ok ⟨T, some a, O⟩ := by
  obtain ⟨c, cs, hd, hcdig, hc0, hmem, hdots⟩ := goodLit_spec a ha
  rw [buttons, hd, List.map_cons, pressList_cons, press_fresh T O c hTO hcdig]
  dsimp only
  by_cases hc0' : c = '0'
  · rw [hc0 hc0']
    subst hc0'
    have ha0 : a = "0" := by
      cases a
      simp only at hd
      rw [hd, hc0 rfl]
    rw [ha0]
    rfl
  · have hstep := typing_list T O hTO cs (String.mk [c])
      (by apply str_ne_of_data_ne; simp)
      (by
        apply str_ne_of_data_ne
        rw [show (String.mk [c]).data = [c] from rfl,
          show ("0" : String).data = ['0'] from rfl]
        simp [hc0'])
      hmem
      (by
        rw [show (String.mk [c]).data = [c] from rfl]
        show List.countP (fun x => x == '.') (c :: cs) ≤ 1
        rw [← hd]
        exact hdots)
    rw [hstep]
    cases a
    simp only at hd
    rw [hd]
    rfl

/-- C1: from the empty state, typing any two reproducible decimal literals
joined by an operator and pressing equals stores exactly the formatted
value of the operation applied to the two parsed operands (as computed by
`evalAndFormat`, the composition the `=` branch performs), with `next` and
`operation` absent. -/
theorem C1_binary_run (a b op s : String)
    (ha : goodLit a = true) (hb : goodLit b = true)
    (hop : op = "+" ∨ op = "−" ∨ op = "×" ∨ op = "÷")
    (hres : evalAndFormat op a b = .ok s) :
    pressList emptyState (buttons a ++ (op :: (buttons b ++ ["="]))) =
      .ok ⟨some s, none, none⟩ := by
  have ha' : a ≠ "" := goodLit_ne_empty a ha
  have hb' : b ≠ "" := goodLit_ne_empty b hb
  have hopne : truthy (some op) = true := by
    rcases hop with rfl | rfl | rfl | rfl <;> decide
  show pressList ⟨none, none, none⟩ (buttons a ++ (op :: (buttons b ++ ["="]))) =
    .ok ⟨some s, none, none⟩
  rw [pressList_append, type_literal none none (Or.inr ⟨rfl, rfl⟩) a ha]
  dsimp only
  rw [pressList_cons, calc_op_noPending ⟨none, some a, none⟩ op hop rfl]
  dsimp only
  rw [if_pos (truthy_some_of_ne a ha')]
  rw [pressList_append, type_literal (some a) (some op) (Or.inl hopne) b hb]
  dsimp only
  rw [pressList_cons,
    calc_eq_go ⟨some a, some b, some op⟩
      ⟨truthy_some_of_ne a ha', hopne, truthy_some_of_ne b hb'⟩]
  dsimp only [getStr]
  rw [evalAndFormat] at hres
  rcases hm : operationsMap op with _ | f <;> rw [hm] at hres <;>
    dsimp only at hres ⊢
  · cases hres
  rcases hr : f (valueOf a) (valueOf b) with e | r <;> rw [hr] at hres <;>
    dsimp only at hres ⊢
  · cases hres
  rw [hres]
  rfl

/-- C1 witness: typing `12`, `+`, `3`, `=` from the empty state yields
`total = "15"` with `next` and `operation` absent. -/
theorem C1_witness :
    pressList emptyState (buttons "12" ++ ("+" :: (buttons "3" ++ ["="]))) =
      .ok ⟨some "15", none, none⟩ :=
  C1_binary_run "12" "3" "+" "15" (by decide) (by decide) (Or.inl rfl)
    (by with_unfolding_all rfl)
